import Mathlib

/-!
Verification of the Secalot XRP wallet JavaScript API (host-side U2F tunnel client).

Shallow embedding conventions:
* JavaScript `Buffer` values are `List Nat` whose elements are byte values;
  a store `buf[i] = e` of a dynamic expression is embedded as `e % 256`,
  matching Node `Buffer` element-assignment truncation.
* JavaScript strings are `List Char` (for base64 material) or `String`.
* Node `Buffer.prototype.toString` with base64 and `Buffer.from` with base64
  are platform primitives, embedded as the standard RFC 4648 encoder/decoder
  (`base64encode` / `base64decode`) below.
* Promise-based control flow is embedded as explicit result passing: each
  operation is a pure function of its arguments and of a device oracle that
  supplies, per transport round trip, either a transport-level failure or the
  raw response frame.  Each runner returns the ordered list of command frames
  actually handed to the transport together with the operation outcome.
-/

/-- The 64 characters of the standard base64 alphabet, in order. -/
def chars64 : List Char :=
  ['A', 'B', 'C', 'D', 'E', 'F', 'G', 'H', 'I', 'J', 'K', 'L', 'M',
   'N', 'O', 'P', 'Q', 'R', 'S', 'T', 'U', 'V', 'W', 'X', 'Y', 'Z',
   'a', 'b', 'c', 'd', 'e', 'f', 'g', 'h', 'i', 'j', 'k', 'l', 'm',
   'n', 'o', 'p', 'q', 'r', 's', 't', 'u', 'v', 'w', 'x', 'y', 'z',
   '0', '1', '2', '3', '4', '5', '6', '7', '8', '9', '+', '/']

/-- Character for a 6-bit group (defaulting to the first alphabet character
out of range, which never happens for byte input). -/
def b64char (k : Nat) : Char := chars64.getD k 'A'

/-- 6-bit value of an alphabet character (its index in the alphabet). -/
def b64val (c : Char) : Nat := chars64.indexOf c

/-- Standard base64 encoding of a byte sequence, with padding; models Node
`buffer.toString` in base64 mode. -/
def base64encode : List Nat → List Char
  | [] => []
  | [a] => [b64char (a / 4), b64char (a % 4 * 16), '=', '=']
  | [a, b] => [b64char (a / 4), b64char (a % 4 * 16 + b / 16), b64char (b % 16 * 4), '=']
  | a :: b :: c :: rest =>
      b64char (a / 4) :: b64char (a % 4 * 16 + b / 16) ::
      b64char (b % 16 * 4 + c / 64) :: b64char (c % 64) :: base64encode rest

/-- The unpadded portion of the standard base64 encoding. -/
def base64core : List Nat → List Char
  | [] => []
  | [a] => [b64char (a / 4), b64char (a % 4 * 16)]
  | [a, b] => [b64char (a / 4), b64char (a % 4 * 16 + b / 16), b64char (b % 16 * 4)]
  | a :: b :: c :: rest =>
      b64char (a / 4) :: b64char (a % 4 * 16 + b / 16) ::
      b64char (b % 16 * 4 + c / 64) :: b64char (c % 64) :: base64core rest

/-- Number of base64 padding characters for a byte count. -/
def padCount (n : Nat) : Nat := (3 - n % 3) % 3

/-- Regroup a list of 6-bit values into bytes (standard base64 decoding core). -/
def decodeVals : List Nat → List Nat
  | [] => []
  | [_] => []
  | [a, b] => [a * 4 + b / 16]
  | [a, b, c] => [a * 4 + b / 16, b % 16 * 16 + c / 4]
  | a :: b :: c :: d :: rest =>
      (a * 4 + b / 16) :: (b % 16 * 16 + c / 4) :: (c % 4 * 64 + d) :: decodeVals rest

/-- Standard base64 decoding of a character sequence; models Node
`Buffer.from` in base64 mode on well-formed input (padding ignored). -/
def base64decode (s : List Char) : List Nat :=
  decodeVals ((s.filter (fun c => c != '=')).map b64val)

/-- `base64.replace(plus-regex, dash)` character step of `webSafe64`. -/
def repPlus (c : Char) : Char := if c = '+' then '-' else c

/-- `.replace(slash-regex, underscore)` character step of `webSafe64`. -/
def repSlash (c : Char) : Char := if c = '/' then '_' else c

/-- `.replace(trailing-equals-regex, empty)`: drop every trailing `=`. -/
def dropEqEnd (s : List Char) : List Char :=
  (s.reverse.dropWhile (fun c => c = '=')).reverse

/-- `webSafe64` from the source: standard base64 to URL-safe base64
(`+` to `-`, `/` to `_`, trailing padding stripped). -/
def webSafe64 (s : List Char) : List Char :=
  dropEqEnd ((s.map repPlus).map repSlash)

/-- `.replace(dash-regex, plus)` character step of `normal64`. -/
def repDash (c : Char) : Char := if c = '-' then '+' else c

/-- `.replace(underscore-regex, slash)` character step of `normal64`. -/
def repUnd (c : Char) : Char := if c = '_' then '/' else c

/-- `normal64` from the source: URL-safe base64 back to standard base64,
appending `two-equals.substring(0, 3 * length % 4)` as padding. -/
def normal64 (s : List Char) : List Char :=
  (s.map repDash).map repUnd ++ List.take (3 * s.length % 4) ['=', '=']

deriving instance DecidableEq for Except

/-- Error taxonomy of the client, one constructor per distinct rejection path
of the source (`InvalidArgument` for precondition rejections such as
`Invalid length.` and `Invalid pin length.`, `tunnelError` for
`Failed to send an APDU.`, `malformedResponse` for `Invalid response APDU.`,
`invalidResponse` for `Invalid APDU response.`, the device-status kinds for
their dedicated messages, `transport` for an error propagated from the
transport promise, and `internalError` for the exception thrown when
`signData` runs with an empty chunk queue). -/
inductive XErr where
  | invalidArgument
  | transport (e : Nat)
  | tunnelError
  | malformedResponse
  | invalidResponse
  | walletNotInitialized
  | walletAlreadyInitialized
  | pinNotVerified
  | unsupportedPinLength
  | pinBlocked
  | invalidPinRetry (n : Int)
  | confirmationExpired
  | internalError
deriving DecidableEq, Repr

/-- The fixed 8-byte magic prefixed to every tunneled frame (`xrpMagic`). -/
def xrpMagic : List Nat := [0x88, 0x77, 0x66, 0x55, 0x44, 0x33, 0x22, 0x11]

/-- `getInfo` command frame, `Buffer.from` of hex `80C40000`. -/
def getInfoApdu : List Nat := [0x80, 0xC4, 0x00, 0x00]

/-- `getRandom` command frame: hex `80C0000000` with byte 4 set to `length`. -/
def getRandomApdu (len : Nat) : List Nat := [0x80, 0xC0, 0x00, 0x00, len % 256]

/-- `wipeoutWallet` command frame, hex `80F0000000`. -/
def wipeoutApdu : List Nat := [0x80, 0xF0, 0x00, 0x00, 0x00]

/-- `initWallet` command frame: header, total length byte, pin length byte,
pin bytes, private key bytes. -/
def initWalletApdu (pin pk : List Nat) : List Nat :=
  0x80 :: 0x20 :: 0x00 :: 0x00 :: ((1 + pin.length + pk.length) % 256) ::
    (pin.length % 256) :: (pin ++ pk)

/-- `verifyPin` command frame: header, pin length byte, pin bytes. -/
def verifyPinApdu (pin : List Nat) : List Nat :=
  0x80 :: 0x22 :: 0x00 :: 0x00 :: (pin.length % 256) :: pin

/-- `getPinTriesLeft` command frame, hex `80228000` (no payload). -/
def triesApdu : List Nat := [0x80, 0x22, 0x80, 0x00]

/-- `getPublicKey` command frame, hex `80400000`. -/
def getPublicKeyApdu : List Nat := [0x80, 0x40, 0x00, 0x00]

/-- The finalize frame of `signData`, hex `80f20200`. -/
def signFinalizeApdu : List Nat := [0x80, 0xF2, 0x02, 0x00]

/-- The chunk-frame building loop of `signData` (`while (offset !==
rawData.length)` with `maxChunkSize = 8`), embedded with the remaining
data in place of `offset` and a first-chunk flag; the fuel argument is the
remaining length, consumed at least one element per iteration. -/
def buildSignGo : Nat → Bool → List Nat → List (List Nat)
  | _, _, [] => []
  | 0, _, _ :: _ => []
  | fuel + 1, first, rest@(_ :: _) =>
      ([0x80, 0xF2, if first then 0x00 else 0x01, 0x00, min 8 rest.length] ++ rest.take 8)
        :: buildSignGo fuel false (rest.drop 8)

/-- The ordered chunk-frame list `apdus` built by `signData` for a decoded
payload. -/
def buildSignApdus (raw : List Nat) : List (List Nat) := buildSignGo raw.length true raw

/-- All frames `signData` pushes at the transport in the all-success case:
the chunk frames followed by the single finalize frame. -/
def signFrames (raw : List Nat) : List (List Nat) := buildSignApdus raw ++ [signFinalizeApdu]

/-- Outcome of a single transport round trip handed to an operation runner:
either a transport-level failure (rejected promise) or a raw response frame
already unwrapped by `sendAPDU`. -/
abbrev DevAnswer := Except Nat (List Nat)

/-- The response handler of the chunk-sending callback in `signData`:
length must be 2, `90 00` succeeds, `6d 00` and `69 82` map to their
dedicated errors, anything else is an invalid response. -/
def classifyChunkResp (resp : List Nat) : Except XErr Unit :=
  if resp.length ≠ 2 then .error .invalidResponse
  else if resp.getD 0 0 = 0x90 ∧ resp.getD 1 0 = 0x00 then .ok ()
  else if resp.getD 0 0 = 0x6d ∧ resp.getD 1 0 = 0x00 then .error .walletNotInitialized
  else if resp.getD 0 0 = 0x69 ∧ resp.getD 1 0 = 0x82 then .error .pinNotVerified
  else .error .invalidResponse

/-- The finalize-frame response handler of `signData` in `src/index.js`:
trailing status must be `90 00`, and the status suffix is sliced off the
resolved signature. -/
def classifyFinalizeResp (resp : List Nat) : Except XErr (List Nat) :=
  if resp.getD (resp.length - 2) 0 = 0x90 ∧ resp.getD (resp.length - 1) 0 = 0x00 then
    .ok (resp.take (resp.length - 2))
  else .error .invalidResponse

/-- The finalize-frame response handler of `signData` in the variant source
file: as the transcription in the source reads, a non-success response whose
first status byte is `0x64` OR whose second status byte is `0x01` is
reported as the confirmation-time-expired error. -/
def classifyFinalizeRespV2 (resp : List Nat) : Except XErr (List Nat) :=
  if resp.getD (resp.length - 2) 0 = 0x90 ∧ resp.getD (resp.length - 1) 0 = 0x00 then
    .ok (resp.take (resp.length - 2))
  else if resp.getD (resp.length - 2) 0 = 0x64 ∨ resp.getD (resp.length - 1) 0 = 0x01 then
    .error .confirmationExpired
  else .error .invalidResponse

/-- The chunk-sending loop of `signData` (`localCallback`): frames are sent
in order, each round trip indexed by `k`; the first failing round trip stops
the loop.  Returns the frames actually sent and the loop outcome. -/
def runChunks : List (List Nat) → (Nat → DevAnswer) → Nat → List (List Nat) × Except XErr Unit
  | [], _, _ => ([], .ok ())
  | f :: fs, dev, k =>
    match dev k with
    | .error e => ([f], .error (.transport e))
    | .ok resp =>
      match classifyChunkResp resp with
      | .error err => ([f], .error err)
      | .ok _ =>
        let p := runChunks fs dev (k + 1)
        (f :: p.1, p.2)

/-- `signData` as a function of the decoded payload and the device oracle:
builds the chunk queue, drains it with `runChunks`, then sends the finalize
frame.  An empty queue reproduces the source calling `apdus.shift()` on an
empty array, which makes `sendAPDU` throw before any transport use. -/
def runSign (raw : List Nat) (dev : Nat → DevAnswer) :
    List (List Nat) × Except XErr (List Nat) :=
  match buildSignApdus raw with
  | [] => ([], .error .internalError)
  | _ :: _ =>
    let p := runChunks (buildSignApdus raw) dev 0
    match p.2 with
    | .error e => (p.1, .error e)
    | .ok _ =>
      match dev (buildSignApdus raw).length with
      | .error e => (p.1 ++ [signFinalizeApdu], .error (.transport e))
      | .ok resp => (p.1 ++ [signFinalizeApdu], classifyFinalizeResp resp)

/-- The response handler of `getRandom`: trailing status `90 00`, exact
length `length + 2`, then the status suffix is sliced off. -/
def classifyRandomResp (len : Nat) (resp : List Nat) : Except XErr (List Nat) :=
  if resp.getD (resp.length - 2) 0 = 0x90 ∧ resp.getD (resp.length - 1) 0 = 0x00 then
    if resp.length = len + 2 then .ok (resp.take (resp.length - 2))
    else .error .invalidResponse
  else .error .invalidResponse

/-- `getRandom` as a function of the requested length and the device oracle:
the length precondition `(length === 0) || (length > 128)` rejects before the
frame is built; otherwise one frame is sent and the response classified. -/
def getRandomRun (len : Nat) (dev : DevAnswer) :
    List (List Nat) × Except XErr (List Nat) :=
  if len = 0 ∨ 128 < len then ([], .error .invalidArgument)
  else
    ([getRandomApdu len],
      match dev with
      | .error e => .error (.transport e)
      | .ok resp => classifyRandomResp len resp)

/-- The response handler of `getPinTriesLeft`: a 2-byte response with first
byte `0x63` resolves the second byte minus `0xC0` (a JavaScript number,
hence `Int`); otherwise `6d 00` maps to the wallet-not-initialized error and
anything else is invalid. -/
def classifyTriesResp (resp : List Nat) : Except XErr Int :=
  if resp.length ≠ 2 then .error .invalidResponse
  else if resp.getD 0 0 ≠ 0x63 then
    if resp.getD 0 0 = 0x6d ∧ resp.getD 1 0 = 0x00 then .error .walletNotInitialized
    else .error .invalidResponse
  else .ok ((resp.getD 1 0 : Int) - 0xC0)

/-- `getPinTriesLeft` as a function of the device oracle: sends the dedicated
tries-left frame (always exactly one round trip) and classifies the answer. -/
def getPinTriesLeftRun (dev : Nat → DevAnswer) : List (List Nat) × Except XErr Int :=
  ([triesApdu],
    match dev 0 with
    | .error e => .error (.transport e)
    | .ok resp => classifyTriesResp resp)

/-- `verifyPin` as a function of the pin bytes and the device oracle: pin
length 4 to 32 checked first; on response `69 82` the tries-left follow-up
runs on the next round trip, its numeric result embedded in the
`invalidPinRetry` error and its own failure propagated unchanged. -/
def verifyPinRun (pin : List Nat) (dev : Nat → DevAnswer) :
    List (List Nat) × Except XErr Unit :=
  if pin.length < 4 ∨ 32 < pin.length then ([], .error .invalidArgument)
  else
    match dev 0 with
    | .error e => ([verifyPinApdu pin], .error (.transport e))
    | .ok resp =>
      if resp.length ≠ 2 then ([verifyPinApdu pin], .error .invalidResponse)
      else if resp.getD 0 0 = 0x90 ∧ resp.getD 1 0 = 0x00 then ([verifyPinApdu pin], .ok ())
      else if resp.getD 0 0 = 0x6d ∧ resp.getD 1 0 = 0x00 then
        ([verifyPinApdu pin], .error .walletNotInitialized)
      else if resp.getD 0 0 = 0x69 ∧ resp.getD 1 0 = 0x82 then
        (verifyPinApdu pin :: (getPinTriesLeftRun (fun i => dev (i + 1))).1,
          match (getPinTriesLeftRun (fun i => dev (i + 1))).2 with
          | .ok n => .error (.invalidPinRetry n)
          | .error e => .error e)
      else if resp.getD 0 0 = 0x67 ∧ resp.getD 1 0 = 0x00 then
        ([verifyPinApdu pin], .error .unsupportedPinLength)
      else if resp.getD 0 0 = 0x69 ∧ resp.getD 1 0 = 0x83 then
        ([verifyPinApdu pin], .error .pinBlocked)
      else ([verifyPinApdu pin], .error .invalidResponse)

/-- The decoded record resolved by `getInfo`. -/
structure XRPInfo where
  version : String
  walletInitialized : Bool
  pinVerified : Bool
deriving DecidableEq, Repr

/-- The response handler of `getInfo`: trailing status `90 00`, exact length
10, then major/minor version string and the two status bits of byte 2. -/
def classifyInfoResp (resp : List Nat) : Except XErr XRPInfo :=
  if resp.getD (resp.length - 2) 0 = 0x90 ∧ resp.getD (resp.length - 1) 0 = 0x00 then
    if resp.length = 10 then
      .ok { version := Nat.repr (resp.getD 0 0) ++ "." ++ Nat.repr (resp.getD 1 0),
            walletInitialized := resp.getD 2 0 &&& 0x01 == 0x01,
            pinVerified := resp.getD 2 0 &&& 0x02 == 0x02 }
    else .error .invalidResponse
  else .error .invalidResponse

/-- The single U2F sign request object built by `sendAPDU`. -/
structure U2FSignRequest where
  version : String
  challenge : List Char
  keyHandle : List Char
  appId : String
deriving DecidableEq, Repr

/-- What the external U2F transport does with the request: fail outright
(rejected promise, e.g. a timeout) or deliver a response object whose
`signatureData` field may be absent. -/
inductive TransportOutcome where
  | failure (e : Nat)
  | response (signatureData : Option (List Char))

/-- `sendAPDU` as a function of the frame, the calling origin and the
transport outcome: builds the single sign request (magic-prefixed key
handle, all-zero challenge, both URL-safe base64), then decodes
`signatureData` and enforces the 2-byte minimum frame length. -/
def sendAPDURun (apdu : List Nat) (origin : String) (t : TransportOutcome) :
    List U2FSignRequest × Except XErr (List Nat) :=
  ([{ version := "U2F_V2",
      challenge := webSafe64 (base64encode (List.replicate 32 0)),
      keyHandle := webSafe64 (base64encode (xrpMagic ++ apdu)),
      appId := origin }],
    match t with
    | .failure e => .error (.transport e)
    | .response none => .error .tunnelError
    | .response (some sd) =>
      let data := base64decode (normal64 sd)
      if data.length < 2 then .error .malformedResponse
      else .ok data)

/-- Frame shape asserted by the specification for every command frame:
a class byte `0x80`, then instruction, two parameters, a length byte equal
to the byte count of the payload that follows it. -/
def claimedFrameShape (f : List Nat) : Prop :=
  5 ≤ f.length ∧ f.getD 0 0 = 0x80 ∧ f.getD 4 0 + 5 = f.length

instance (f : List Nat) : Decidable (claimedFrameShape f) := by
  unfold claimedFrameShape; infer_instance

lemma b64char_ok (k : Nat) :
    b64char k ≠ '=' ∧ repSlash (repPlus (b64char k)) ≠ '=' ∧
      repUnd (repDash (repSlash (repPlus (b64char k)))) = b64char k := by
  have hlen : chars64.length = 64 := by decide
  by_cases h : k < 64
  · have hfin : ∀ i : Fin 64,
        b64char i.val ≠ '=' ∧ repSlash (repPlus (b64char i.val)) ≠ '=' ∧
          repUnd (repDash (repSlash (repPlus (b64char i.val)))) = b64char i.val := by decide
    exact hfin ⟨k, h⟩
  · have hA : b64char k = 'A' := by
      unfold b64char
      exact List.getD_eq_default _ _ (by omega)
    rw [hA]; refine ⟨by decide, by decide, by decide⟩

lemma b64val_b64char (k : Nat) (h : k < 64) : b64val (b64char k) = k := by
  have hfin : ∀ i : Fin 64, b64val (b64char i.val) = i.val := by decide
  exact hfin ⟨k, h⟩

lemma encode_eq_core_pad (bs : List Nat) :
    base64encode bs = base64core bs ++ List.replicate (padCount bs.length) '=' := by
  induction bs using base64core.induct with
  | case1 => simp [base64encode, base64core, padCount]
  | case2 a =>
    show base64encode [a] = base64core [a] ++ _
    have h1 : padCount [a].length = 2 := by simp [padCount]
    rw [h1]; rfl
  | case3 a b =>
    show base64encode [a, b] = base64core [a, b] ++ _
    have h1 : padCount [a, b].length = 1 := by simp [padCount]
    rw [h1]; rfl
  | case4 a b c rest ih =>
    show base64encode (a :: b :: c :: rest) = base64core (a :: b :: c :: rest) ++ _
    have h1 : padCount (a :: b :: c :: rest).length = padCount rest.length := by
      simp [padCount, List.length_cons]
      omega
    rw [h1]
    simp only [base64encode, base64core, ih, List.cons_append]

lemma core_chars (bs : List Nat) (c : Char) (hc : c ∈ base64core bs) :
    ∃ k, c = b64char k := by
  induction bs using base64core.induct with
  | case1 => simp [base64core] at hc
  | case2 a =>
    simp only [base64core, List.mem_cons, List.mem_singleton] at hc
    rcases hc with h | h | h
    · exact ⟨_, h⟩
    · exact ⟨_, h⟩
    · simp at h
  | case3 a b =>
    simp only [base64core, List.mem_cons, List.mem_singleton] at hc
    rcases hc with h | h | h | h
    · exact ⟨_, h⟩
    · exact ⟨_, h⟩
    · exact ⟨_, h⟩
    · simp at h
  | case4 a b c rest ih =>
    simp only [base64core, List.mem_cons] at hc
    rcases hc with h | h | h | h | h
    · exact ⟨_, h⟩
    · exact ⟨_, h⟩
    · exact ⟨_, h⟩
    · exact ⟨_, h⟩
    · exact ih h

lemma padCount_add_three (n : Nat) : padCount (n + 3) = padCount n := by
  unfold padCount
  have h : (n + 3) % 3 = n % 3 := by omega
  rw [h]

lemma core_len_mod (bs : List Nat) :
    3 * (base64core bs).length % 4 = padCount bs.length := by
  induction bs using base64core.induct with
  | case1 => simp [base64core, padCount]
  | case2 a => simp [base64core, padCount]
  | case3 a b => simp [base64core, padCount]
  | case4 a b c rest ih =>
    have hp : padCount (a :: b :: c :: rest).length = padCount rest.length := by
      have h3 : (a :: b :: c :: rest).length = rest.length + 3 := by
        simp [List.length_cons]
      rw [h3, padCount_add_three]
    have hc : (base64core (a :: b :: c :: rest)).length =
        (base64core rest).length + 4 := by
      simp [base64core, List.length_cons]
    rw [hp, hc]
    have hm : 3 * ((base64core rest).length + 4) % 4 = 3 * (base64core rest).length % 4 := by
      omega
    rw [hm, ih]

lemma dropWhile_of_forall_neg {p : Char → Bool} {l : List Char}
    (h : ∀ c ∈ l, p c = false) : l.dropWhile p = l := by
  cases l with
  | nil => rfl
  | cons a t =>
    rw [List.dropWhile_cons_of_neg]
    simp [h a (by simp)]

lemma dropEqEnd_append_replicate (xs : List Char) (p : Nat)
    (hx : ∀ c ∈ xs, c ≠ '=') :
    dropEqEnd (xs ++ List.replicate p '=') = xs := by
  unfold dropEqEnd
  rw [List.reverse_append, List.reverse_replicate]
  rw [List.dropWhile_append_of_pos (by
    intro a ha
    have : a = '=' := List.eq_of_mem_replicate ha
    simp [this])]
  rw [dropWhile_of_forall_neg (by
    intro c hc
    have : c ∈ xs := List.mem_reverse.mp hc
    simp [hx c this])]
  exact List.reverse_reverse xs

lemma map_id_on {α : Type} (f : α → α) (l : List α) (h : ∀ c ∈ l, f c = c) :
    l.map f = l := by
  induction l with
  | nil => rfl
  | cons a t ih =>
    simp only [List.map_cons, h a (by simp), ih (fun c hc => h c (by simp [hc]))]

lemma websafe_encode (bs : List Nat) :
    webSafe64 (base64encode bs) = ((base64core bs).map repPlus).map repSlash := by
  unfold webSafe64
  rw [encode_eq_core_pad]
  rw [List.map_append, List.map_append, List.map_replicate, List.map_replicate]
  rw [show repPlus '=' = '=' from by decide, show repSlash '=' = '=' from by decide]
  apply dropEqEnd_append_replicate
  intro c hc
  rcases List.mem_map.mp hc with ⟨d, hd, rfl⟩
  rcases List.mem_map.mp hd with ⟨e, he, rfl⟩
  rcases core_chars bs e he with ⟨k, rfl⟩
  exact (b64char_ok k).2.1

lemma map4_id (l : List Char) (h : ∀ c ∈ l, repUnd (repDash (repSlash (repPlus c))) = c) :
    (((l.map repPlus).map repSlash).map repDash).map repUnd = l := by
  induction l with
  | nil => rfl
  | cons a t ih =>
    simp only [List.map_cons]
    rw [h a (by simp), ih (fun c hc => h c (by simp [hc]))]

lemma roundtrip_websafe (bs : List Nat) :
    normal64 (webSafe64 (base64encode bs)) = base64encode bs := by
  rw [websafe_encode]
  unfold normal64
  rw [map4_id (base64core bs) (by
    intro c hc
    rcases core_chars bs c hc with ⟨k, rfl⟩
    exact (b64char_ok k).2.2)]
  rw [List.length_map, List.length_map, core_len_mod]
  have hp : padCount bs.length = 0 ∨ padCount bs.length = 1 ∨ padCount bs.length = 2 := by
    unfold padCount; omega
  have ht : List.take (padCount bs.length) ['=', '='] =
      List.replicate (padCount bs.length) '=' := by
    rcases hp with h | h | h <;> rw [h] <;> rfl
  rw [ht, encode_eq_core_pad]

lemma filter_encode (bs : List Nat) :
    (base64encode bs).filter (fun c => c != '=') = base64core bs := by
  rw [encode_eq_core_pad, List.filter_append]
  have h1 : (base64core bs).filter (fun c => c != '=') = base64core bs := by
    apply List.filter_eq_self.mpr
    intro c hc
    rcases core_chars bs c hc with ⟨k, rfl⟩
    simp [(b64char_ok k).1]
  have h2 : (List.replicate (padCount bs.length) '=').filter (fun c => c != '=') = [] := by
    apply List.filter_replicate_of_neg
    simp
  rw [h1, h2, List.append_nil]

lemma decode_core (bs : List Nat) (hb : ∀ b ∈ bs, b < 256) :
    decodeVals ((base64core bs).map b64val) = bs := by
  induction bs using base64core.induct with
  | case1 => rfl
  | case2 a =>
    have ha : a < 256 := hb a (by simp)
    simp only [base64core, List.map_cons, List.map_nil]
    rw [b64val_b64char _ (by omega), b64val_b64char _ (by omega)]
    simp only [decodeVals, List.cons.injEq, and_true]
    omega
  | case3 a b =>
    have ha : a < 256 := hb a (by simp)
    have hbb : b < 256 := hb b (by simp)
    simp only [base64core, List.map_cons, List.map_nil]
    rw [b64val_b64char _ (by omega), b64val_b64char _ (by omega),
      b64val_b64char _ (by omega)]
    simp only [decodeVals, List.cons.injEq, and_true]
    refine ⟨by omega, by omega⟩
  | case4 a b c rest ih =>
    have ha : a < 256 := hb a (by simp)
    have hbb : b < 256 := hb b (by simp)
    have hcc : c < 256 := hb c (by simp)
    have hrest : ∀ x ∈ rest, x < 256 := fun x hx => hb x (by simp [hx])
    simp only [base64core, List.map_cons]
    rw [b64val_b64char _ (by omega), b64val_b64char _ (by omega),
      b64val_b64char _ (by omega), b64val_b64char _ (by omega)]
    simp only [decodeVals, List.cons.injEq]
    exact ⟨by omega, by omega, by omega, ih hrest⟩

lemma decode_encode (bs : List Nat) (hb : ∀ b ∈ bs, b < 256) :
    base64decode (base64encode bs) = bs := by
  unfold base64decode
  rw [filter_encode, decode_core bs hb]

lemma buildSignGo_length (fuel : Nat) : ∀ (first : Bool) (rest : List Nat),
    rest.length ≤ fuel → (buildSignGo fuel first rest).length = (rest.length + 7) / 8 := by
  induction fuel with
  | zero =>
    intro first rest h
    cases rest with
    | nil => simp [buildSignGo]
    | cons a t => simp at h
  | succ n ih =>
    intro first rest h
    cases rest with
    | nil => simp [buildSignGo]
    | cons a t =>
      simp only [List.length_cons] at h
      simp only [buildSignGo, List.length_cons]
      rw [ih false ((a :: t).drop 8)
        (by simp only [List.length_drop, List.length_cons]; omega)]
      simp only [List.length_drop, List.length_cons]
      omega

lemma buildSignGo_get (fuel : Nat) : ∀ (first : Bool) (rest : List Nat) (i : Nat),
    rest.length ≤ fuel → 8 * i < rest.length →
    (buildSignGo fuel first rest)[i]? =
      some ([0x80, 0xF2, if i = 0 then (if first then 0x00 else 0x01) else 0x01, 0x00,
             min 8 (rest.length - 8 * i)] ++ (rest.drop (8 * i)).take 8) := by
  induction fuel with
  | zero =>
    intro first rest i h hi
    cases rest with
    | nil => simp at hi
    | cons a t => simp at h
  | succ n ih =>
    intro first rest i h hi
    cases rest with
    | nil => simp at hi
    | cons a t =>
      cases i with
      | zero =>
        simp only [buildSignGo, List.getElem?_cons_zero, Nat.mul_zero, Nat.sub_zero,
          List.drop_zero]
        simp
      | succ j =>
        simp only [List.length_cons] at h hi
        simp only [buildSignGo, List.getElem?_cons_succ]
        rw [ih false ((a :: t).drop 8) j
          (by simp only [List.length_drop, List.length_cons]; omega)
          (by simp only [List.length_drop, List.length_cons]; omega)]
        have e1 : (8 : Nat) + 8 * j = 8 * (j + 1) := by omega
        have e2 : (a :: t).length - 8 - 8 * j = (a :: t).length - 8 * (j + 1) := by
          simp only [List.length_cons]; omega
        simp only [List.length_drop, List.drop_drop, e1, e2]
        simp

lemma buildSignApdus_length (raw : List Nat) :
    (buildSignApdus raw).length = (raw.length + 7) / 8 :=
  buildSignGo_length raw.length true raw (Nat.le_refl _)

lemma buildSignApdus_get (raw : List Nat) (i : Nat) (hi : 8 * i < raw.length) :
    (buildSignApdus raw)[i]? =
      some ([0x80, 0xF2, if i = 0 then 0x00 else 0x01, 0x00,
             min 8 (raw.length - 8 * i)] ++ (raw.drop (8 * i)).take 8) := by
  have h := buildSignGo_get raw.length true raw i (Nat.le_refl _) hi
  simpa using h

lemma buildSignGo_frames (fuel : Nat) : ∀ (first : Bool) (rest : List Nat) (f : List Nat),
    f ∈ buildSignGo fuel first rest →
    f.getD 0 0 = 0x80 ∧ (f.getD 2 0 = 0x00 ∨ f.getD 2 0 = 0x01) ∧
      f.getD 4 0 = (f.drop 5).length := by
  induction fuel with
  | zero =>
    intro first rest f hf
    cases rest with
    | nil => simp [buildSignGo] at hf
    | cons a t => simp [buildSignGo] at hf
  | succ n ih =>
    intro first rest f hf
    cases rest with
    | nil => simp [buildSignGo] at hf
    | cons a t =>
      simp only [buildSignGo, List.mem_cons] at hf
      rcases hf with rfl | hf
      · refine ⟨rfl, ?_, ?_⟩
        · cases first <;> simp
        · simp only [List.getD_eq_getElem?_getD, List.cons_append, List.nil_append,
            List.getElem?_cons_succ, List.getElem?_cons_zero, Option.getD_some,
            List.drop_succ_cons, List.drop_zero, List.length_take, List.length_cons]
      · exact ih false ((a :: t).drop 8) f hf

lemma buildSignApdus_countP_finalizeFlag (raw : List Nat) :
    (buildSignApdus raw).countP (fun f => f.getD 2 0 == 0x02) = 0 := by
  apply List.countP_eq_zero.mpr
  intro f hf
  rcases buildSignGo_frames raw.length true raw f hf with ⟨_, hflag, _⟩
  simp only [List.getD_eq_getElem?_getD] at hflag
  rcases hflag with h | h <;> simp [h]

lemma runChunks_fail : ∀ (frames : List (List Nat)) (dev : Nat → DevAnswer) (base k : Nat),
    k < frames.length →
    (∀ j, j < k → ∃ resp, dev (base + j) = .ok resp ∧ classifyChunkResp resp = .ok ()) →
    (∀ resp, dev (base + k) = .ok resp → classifyChunkResp resp ≠ .ok ()) →
    (runChunks frames dev base).1 = frames.take (k + 1) ∧
      ∃ e, (runChunks frames dev base).2 = .error e := by
  intro frames
  induction frames with
  | nil =>
    intro dev base k hk
    simp at hk
  | cons f fs ih =>
    intro dev base k hk hprev hfail
    cases k with
    | zero =>
      cases hdev : dev base with
      | error e => simp [runChunks, hdev]
      | ok resp =>
        have hne := hfail resp (by simpa using hdev)
        cases hcl : classifyChunkResp resp with
        | ok u => cases u; exact absurd hcl hne
        | error err => simp [runChunks, hdev, hcl]
    | succ k2 =>
      rcases hprev 0 (by omega) with ⟨resp0, hd0, hc0⟩
      rw [Nat.add_zero] at hd0
      have hrec := ih dev (base + 1) k2 (by simpa using hk)
        (fun j hj => by
          rcases hprev (j + 1) (by omega) with ⟨r, hr1, hr2⟩
          exact ⟨r, by rwa [show base + 1 + j = base + (j + 1) from by omega], hr2⟩)
        (fun r hr =>
          hfail r (by rwa [show base + (k2 + 1) = base + 1 + k2 from by omega]))
      rcases hrec with ⟨h1, e, h2⟩
      refine ⟨?_, e, ?_⟩
      · simp only [runChunks, hd0, hc0, List.take_succ_cons]
        rw [h1]
      · simp only [runChunks, hd0, hc0]
        exact h2

lemma runSign_of_chunks_error (raw : List Nat) (dev : Nat → DevAnswer) (e : XErr)
    (hne : buildSignApdus raw ≠ [])
    (h2 : (runChunks (buildSignApdus raw) dev 0).2 = .error e) :
    runSign raw dev = ((runChunks (buildSignApdus raw) dev 0).1, .error e) := by
  unfold runSign
  cases hE : buildSignApdus raw with
  | nil => exact absurd hE hne
  | cons f fs =>
    rw [hE] at h2
    simp only [h2]


/-- C8: for every byte buffer, applying `webSafe64` to its standard base64
encoding and then `normal64` returns the original base64 string, and (for
byte-valued buffers) decoding the restored string recovers exactly the
original bytes. -/
theorem webSafe64_normal64_roundtrip (bs : List Nat) (hb : ∀ b ∈ bs, b < 256) :
    normal64 (webSafe64 (base64encode bs)) = base64encode bs ∧
      base64decode (normal64 (webSafe64 (base64encode bs))) = bs := by
  refine ⟨roundtrip_websafe bs, ?_⟩
  rw [roundtrip_websafe]
  exact decode_encode bs hb

/-- Witness for C8 at the concrete buffer `[0x88, 0x77, 0xFE]`. -/
theorem webSafe64_normal64_roundtrip_witness :
    normal64 (webSafe64 (base64encode [0x88, 0x77, 0xFE])) = base64encode [0x88, 0x77, 0xFE] ∧
      base64decode (normal64 (webSafe64 (base64encode [0x88, 0x77, 0xFE]))) =
        [0x88, 0x77, 0xFE] :=
  webSafe64_normal64_roundtrip [0x88, 0x77, 0xFE] (by decide)

/-- C3: in the variant source the sign-finalize handler classifies the
non-success status `0x6D01` (first status byte not `0x64`) as the
confirmation-time-expired error, because the transcribed condition joins the
two byte comparisons with a disjunction; the specified behavior reserves
that error for status `0x6401` alone. -/
theorem signFinalize_confirmationExpired_bug :
    classifyFinalizeRespV2 [0x6d, 0x01] = .error .confirmationExpired ∧
      (0x6d : Nat) ≠ 0x64 ∧
      classifyFinalizeRespV2 [0x64, 0x00] = .error .confirmationExpired ∧
      (0x00 : Nat) ≠ 0x01 := by
  decide

/-- C6: for every frame, origin and transport outcome, `sendAPDU` submits
exactly one request whose version tag is `U2F_V2`, whose challenge is the
URL-safe base64 of 32 zero bytes (43 letters `A`), whose key handle is the
URL-safe base64 of the 8-byte magic followed by the frame, and whose app id
is the calling origin; it propagates a transport failure unchanged, rejects
with the tunnel error when `signatureData` is absent, rejects with the
malformed-response error when the decoded frame is shorter than 2 bytes, and
resolves the base64url-decoded `signatureData` as the raw response frame. -/
theorem sendAPDU_spec (apdu : List Nat) (origin : String) (t : TransportOutcome) :
    (sendAPDURun apdu origin t).1.length = 1 ∧
    (sendAPDURun apdu origin t).1 =
      [{ version := "U2F_V2", challenge := List.replicate 43 'A',
         keyHandle := webSafe64 (base64encode (xrpMagic ++ apdu)), appId := origin }] ∧
    (∀ e, t = .failure e → (sendAPDURun apdu origin t).2 = .error (.transport e)) ∧
    (t = .response none → (sendAPDURun apdu origin t).2 = .error .tunnelError) ∧
    (∀ sd, t = .response (some sd) → (base64decode (normal64 sd)).length < 2 →
      (sendAPDURun apdu origin t).2 = .error .malformedResponse) ∧
    (∀ resp, (∀ b ∈ resp, b < 256) → 2 ≤ resp.length →
      t = .response (some (webSafe64 (base64encode resp))) →
      (sendAPDURun apdu origin t).2 = .ok resp) := by
  have hch : webSafe64 (base64encode (List.replicate 32 0)) = List.replicate 43 'A' := by
    decide
  refine ⟨rfl, ?_, ?_, ?_, ?_, ?_⟩
  · simp only [sendAPDURun]
    rw [hch]
  · intro e ht
    subst ht
    rfl
  · intro ht
    subst ht
    rfl
  · intro sd ht hlt
    subst ht
    simp only [sendAPDURun]
    rw [if_pos hlt]
  · intro resp hb h2 ht
    subst ht
    simp only [sendAPDURun]
    rw [roundtrip_websafe, decode_encode resp hb]
    rw [if_neg (by omega)]

/-- Witness for C6: a successful round trip with the `getInfo` frame, origin
`o`, and a tunneled 2-byte success response recovers exactly those bytes. -/
theorem sendAPDU_spec_witness :
    (sendAPDURun getInfoApdu "o"
        (.response (some (webSafe64 (base64encode [0x90, 0x00]))))).2 = .ok [0x90, 0x00] :=
  (sendAPDU_spec getInfoApdu "o"
      (.response (some (webSafe64 (base64encode [0x90, 0x00]))))).2.2.2.2.2
    [0x90, 0x00] (by decide) (by decide) rfl

/-- C1 counterexample: for the 9-byte payload the chunk list has two frames,
and the byte at index 3 — `param2` in the specified frame layout
`[class, instruction, param1, param2, length, payload]` — is `0x00` on the
second chunk frame (the claim requires `0x01` there) and `0x00` on the
finalize frame (the claim requires `0x02` there); the start/continue/finish
flag actually lives at index 2, `param1`. -/
theorem signData_chunk_frames_cex :
    (buildSignApdus (List.replicate 9 0)).length = 2 ∧
      ((buildSignApdus (List.replicate 9 0)).getD 1 []).getD 3 0xFF = 0x00 ∧
      ((buildSignApdus (List.replicate 9 0)).getD 1 []).getD 2 0xFF = 0x01 ∧
      signFinalizeApdu.getD 3 0xFF = 0x00 ∧ signFinalizeApdu.getD 2 0xFF = 0x02 := by
  decide

/-- C1 (amended): `signData` splits the decoded bytes into chunk frames of
maximum size 8 — over a payload exactly divisible by 8, exactly
`payload.length / 8` chunk frames — with the start/continue flag carried in
`param1` (byte index 2, `0x00` on the first chunk, `0x01` on every
subsequent chunk) while `param2` (byte index 3) is always `0x00`, plus
exactly one finalize frame, whose `param1` is `0x02`; over a payload not
divisible by 8, the final chunk frame carries the remainder length in its
length byte and the remainder bytes as payload. -/
theorem signData_chunk_frames (raw : List Nat) :
    (raw.length % 8 = 0 → (buildSignApdus raw).length = raw.length / 8) ∧
    (∀ i f, (buildSignApdus raw)[i]? = some f →
      f[2]? = some (if i = 0 then 0x00 else 0x01) ∧ f[3]? = some 0x00) ∧
    signFinalizeApdu[2]? = some 0x02 ∧
    (signFrames raw).countP (fun f => f.getD 2 0 == 0x02) = 1 ∧
    (raw.length % 8 ≠ 0 → ∃ f, (buildSignApdus raw).getLast? = some f ∧
      f[4]? = some (raw.length % 8) ∧
      f.drop 5 = raw.drop (raw.length - raw.length % 8)) := by
  refine ⟨?_, ?_, rfl, ?_, ?_⟩
  · intro h
    rw [buildSignApdus_length]
    omega
  · intro i f hf
    have hi : i < (buildSignApdus raw).length := by
      rcases List.getElem?_eq_some_iff.mp hf with ⟨h, _⟩
      exact h
    rw [buildSignApdus_length] at hi
    have h8 : 8 * i < raw.length := by omega
    rw [buildSignApdus_get raw i h8] at hf
    have hf2 := Option.some.inj hf
    subst hf2
    constructor <;> simp
  · unfold signFrames
    rw [List.countP_append, buildSignApdus_countP_finalizeFlag]
    rfl
  · intro hmod
    have hlen : (buildSignApdus raw).length = (raw.length + 7) / 8 :=
      buildSignApdus_length raw
    have hpos : 0 < (raw.length + 7) / 8 := by omega
    have h8 : 8 * ((raw.length + 7) / 8 - 1) < raw.length := by omega
    rw [List.getLast?_eq_getElem?, hlen]
    rw [buildSignApdus_get raw ((raw.length + 7) / 8 - 1) h8]
    refine ⟨_, rfl, ?_, ?_⟩
    · have hmin : min 8 (raw.length - 8 * ((raw.length + 7) / 8 - 1)) = raw.length % 8 := by
        omega
      simp only [List.cons_append, List.nil_append, List.getElem?_cons_succ,
        List.getElem?_cons_zero]
      rw [hmin]
    · have hdropix : 8 * ((raw.length + 7) / 8 - 1) = raw.length - raw.length % 8 := by
        omega
      simp only [List.cons_append, List.nil_append, List.drop_succ_cons, List.drop_zero]
      rw [hdropix]
      apply List.take_of_length_le
      simp only [List.length_drop]
      omega

/-- Witness for C1: the divisible and the non-divisible branch instantiated
at the 16-byte and the 9-byte all-zero payloads. -/
theorem signData_chunk_frames_witness :
    (buildSignApdus (List.replicate 16 0)).length = 16 / 8 ∧
      ∃ f, (buildSignApdus (List.replicate 9 0)).getLast? = some f ∧
        f[4]? = some ((List.replicate 9 (0 : Nat)).length % 8) ∧
        f.drop 5 = (List.replicate 9 (0 : Nat)).drop
          ((List.replicate 9 (0 : Nat)).length - (List.replicate 9 (0 : Nat)).length % 8) :=
  ⟨by
    have h := (signData_chunk_frames (List.replicate 16 0)).1 (by decide)
    simpa using h,
   (signData_chunk_frames (List.replicate 9 0)).2.2.2.2 (by decide)⟩

/-- C2: during `signData`, if every chunk round trip before position `k`
classifies as success and the round trip for chunk `k` fails (a transport
failure, or a response that does not classify as success), then the frames
handed to the transport are exactly the chunk frames up to and including
chunk `k` — no later chunk frame and no finalize frame — and the operation
never resolves with a signature. -/
theorem signData_abort_on_failure (raw : List Nat) (dev : Nat → DevAnswer) (k : Nat)
    (hk : k < (buildSignApdus raw).length)
    (hprev : ∀ j, j < k → ∃ resp, dev j = .ok resp ∧ classifyChunkResp resp = .ok ())
    (hfail : ∀ resp, dev k = .ok resp → classifyChunkResp resp ≠ .ok ()) :
    (runSign raw dev).1 = (buildSignApdus raw).take (k + 1) ∧
      ∀ sig, (runSign raw dev).2 ≠ .ok sig := by
  have hne : buildSignApdus raw ≠ [] := by
    intro h0
    rw [h0] at hk
    simp at hk
  have h := runChunks_fail (buildSignApdus raw) dev 0 k hk
    (fun j hj => by simpa using hprev j hj)
    (fun r hr => hfail r (by simpa using hr))
  rcases h with ⟨h1, e, h2⟩
  rw [runSign_of_chunks_error raw dev e hne h2]
  exact ⟨h1, fun sig hs => nomatch hs⟩

/-- Witness for C2: a 16-byte payload (two chunk frames) against an oracle
whose second answer is the wallet-not-initialized status stops after the
second chunk frame. -/
theorem signData_abort_on_failure_witness :
    (runSign (List.replicate 16 0)
        (fun i => if i = 0 then Except.ok [0x90, 0x00] else Except.ok [0x6d, 0x00])).1 =
      (buildSignApdus (List.replicate 16 0)).take 2 :=
  (signData_abort_on_failure (List.replicate 16 0)
      (fun i => if i = 0 then Except.ok [0x90, 0x00] else Except.ok [0x6d, 0x00]) 1
      (by decide)
      (fun j hj => ⟨[0x90, 0x00], by
        have hj0 : j = 0 := by omega
        subst hj0
        exact ⟨rfl, rfl⟩⟩)
      (fun resp h => by
        have h2 : Except.ok [0x6d, 0x00] = Except.ok resp := h
        cases h2
        decide)).1

/-- C4: `getRandom` fails with the invalid-argument error and no transport
interaction exactly when the requested length lies outside 1..128; for an
in-range length, a response of exactly `length + 2` bytes ending in status
`90 00` resolves exactly the first `length` bytes, and a response of any
other length or with a non-success status is rejected. -/
theorem getRandom_spec (len : Nat) (dev : DevAnswer) :
    ((len = 0 ∨ 128 < len) ↔
      ((getRandomRun len dev).1 = [] ∧
        (getRandomRun len dev).2 = .error .invalidArgument)) ∧
    (∀ resp, 1 ≤ len → len ≤ 128 → dev = .ok resp → resp.length = len + 2 →
      resp.getD (resp.length - 2) 0 = 0x90 → resp.getD (resp.length - 1) 0 = 0x00 →
      (getRandomRun len dev).2 = .ok (resp.take len)) ∧
    (∀ resp, 1 ≤ len → len ≤ 128 → dev = .ok resp →
      (resp.length ≠ len + 2 ∨ resp.getD (resp.length - 2) 0 ≠ 0x90 ∨
        resp.getD (resp.length - 1) 0 ≠ 0x00) →
      ∀ out, (getRandomRun len dev).2 ≠ .ok out) := by
  refine ⟨⟨?_, ?_⟩, ?_, ?_⟩
  · intro h
    unfold getRandomRun
    rw [if_pos h]
    exact ⟨rfl, rfl⟩
  · intro ⟨htr, _⟩
    by_contra hn
    unfold getRandomRun at htr
    rw [if_neg hn] at htr
    simp at htr
  · intro resp h1 h2 hdev hlen h90 h00
    subst hdev
    unfold getRandomRun
    rw [if_neg (by omega)]
    simp only
    unfold classifyRandomResp
    rw [if_pos ⟨h90, h00⟩, if_pos hlen]
    have hsub : resp.length - 2 = len := by omega
    rw [hsub]
  · intro resp h1 h2 hdev hbad out
    subst hdev
    unfold getRandomRun
    rw [if_neg (by omega)]
    simp only
    unfold classifyRandomResp
    by_cases hst : resp.getD (resp.length - 2) 0 = 0x90 ∧ resp.getD (resp.length - 1) 0 = 0x00
    · rw [if_pos hst]
      have hlen : resp.length ≠ len + 2 := by
        rcases hbad with h | h | h
        · exact h
        · exact absurd hst.1 h
        · exact absurd hst.2 h
      rw [if_neg hlen]
      exact fun h => nomatch h
    · rw [if_neg hst]
      exact fun h => nomatch h

/-- Witness for C4: requesting 3 bytes against the response
`[5, 6, 7, 0x90, 0x00]` resolves `[5, 6, 7]`. -/
theorem getRandom_spec_witness :
    (getRandomRun 3 (Except.ok [5, 6, 7, 0x90, 0x00])).2 = .ok [5, 6, 7] :=
  (getRandom_spec 3 (Except.ok [5, 6, 7, 0x90, 0x00])).2.1 [5, 6, 7, 0x90, 0x00]
    (by decide) (by decide) rfl (by decide) (by decide) (by decide)

/-- C5: when `verifyPin` receives device status `69 82`, it issues the
zero-payload tries-remaining follow-up frame as its second and last frame;
a follow-up status with high byte `0x63` yields the invalid-PIN-retry error
carrying the low byte minus `0xC0` (status `63 C2` yields 2 tries left), a
follow-up status with a different high byte never yields a numeric
tries-left value, and a `6d 00` follow-up status takes precedence as the
wallet-not-initialized error. -/
theorem verifyPin_triesLeft (pin : List Nat) (dev : Nat → DevAnswer)
    (hlen : 4 ≤ pin.length ∧ pin.length ≤ 32) (h0 : dev 0 = .ok [0x69, 0x82]) :
    (verifyPinRun pin dev).1 = [verifyPinApdu pin, triesApdu] ∧
    (∀ c, dev 1 = .ok [0x63, c] →
      (verifyPinRun pin dev).2 = .error (.invalidPinRetry ((c : Int) - 0xC0))) ∧
    (dev 1 = .ok [0x63, 0xC2] → (verifyPinRun pin dev).2 = .error (.invalidPinRetry 2)) ∧
    (dev 1 = .ok [0x6d, 0x00] → (verifyPinRun pin dev).2 = .error .walletNotInitialized) ∧
    (∀ a b n, dev 1 = .ok [a, b] → a ≠ 0x63 →
      (verifyPinRun pin dev).2 ≠ .error (.invalidPinRetry n)) := by
  have hrun : verifyPinRun pin dev =
      (verifyPinApdu pin :: (getPinTriesLeftRun (fun i => dev (i + 1))).1,
        match (getPinTriesLeftRun (fun i => dev (i + 1))).2 with
        | .ok n => .error (.invalidPinRetry n)
        | .error e => .error e) := by
    unfold verifyPinRun
    rw [if_neg (by omega), h0]
    norm_num
  have htr : ∀ c : Nat, dev 1 = .ok [0x63, c] →
      (getPinTriesLeftRun (fun i => dev (i + 1))).2 = .ok ((c : Int) - 0xC0) := by
    intro c h1
    unfold getPinTriesLeftRun
    simp only [Nat.zero_add, h1]
    unfold classifyTriesResp
    norm_num
  refine ⟨?_, ?_, ?_, ?_, ?_⟩
  · rw [hrun]
    rfl
  · intro c h1
    rw [hrun, htr c h1]
  · intro h1
    rw [hrun, htr 0xC2 h1]
    norm_num
  · intro h1
    rw [hrun]
    have : (getPinTriesLeftRun (fun i => dev (i + 1))).2 = .error .walletNotInitialized := by
      unfold getPinTriesLeftRun
      simp only [Nat.zero_add, h1]
      unfold classifyTriesResp
      norm_num
    rw [this]
  · intro a b n h1 ha
    rw [hrun]
    have : (getPinTriesLeftRun (fun i => dev (i + 1))).2 = .error .walletNotInitialized ∨
        (getPinTriesLeftRun (fun i => dev (i + 1))).2 = .error .invalidResponse := by
      unfold getPinTriesLeftRun
      simp only [Nat.zero_add, h1]
      unfold classifyTriesResp
      by_cases hw : a = 0x6d ∧ b = 0x00
      · left
        norm_num [ha, hw.1, hw.2]
      · right
        rw [if_neg (by norm_num)]
        rw [if_pos (by norm_num [ha])]
        rw [if_neg (by simpa using hw)]
    rcases this with h | h <;> rw [h] <;> exact fun hc => nomatch hc

/-- Witness for C5: pin `[1,2,3,4]`, first answer `69 82`, follow-up answer
`63 C2` yields the invalid-PIN-retry error with 2 tries left. -/
theorem verifyPin_triesLeft_witness :
    (verifyPinRun [1, 2, 3, 4]
        (fun i => if i = 0 then Except.ok [0x69, 0x82] else Except.ok [0x63, 0xC2])).2 =
      .error (.invalidPinRetry 2) :=
  (verifyPin_triesLeft [1, 2, 3, 4]
      (fun i => if i = 0 then Except.ok [0x69, 0x82] else Except.ok [0x63, 0xC2])
      (by decide) rfl).2.2.1 rfl

/-- C7 counterexample: the `getInfo` frame is the 4-byte header `80 C4 00 00`
with no length byte at all, and the `getRandom` frame carries the requested
response length (here 5) in its fifth byte while its payload is empty — both
violate the claimed shape `80 ins p1 p2 len payload` with
`len = payload byte count`. -/
theorem frame_length_invariant_cex :
    ¬ claimedFrameShape getInfoApdu ∧ ¬ claimedFrameShape (getRandomApdu 5) := by
  decide

/-- C7 (amended): every command frame the client sends starts with the fixed
class byte `0x80`; the frames that carry a payload (initialize, verify-PIN,
and every sign chunk) follow `80 ins p1 p2 len payload` with the length byte
equal to the payload byte count; the zero-payload frames are bare 4-byte
headers (`getInfo`, tries-left, public-key, sign-finalize) or 5-byte headers
whose fifth byte is zero (`wipeoutWallet`) or the requested response length
(`getRandom`). -/
theorem frame_length_invariant (pin pk raw : List Nat) (len : Nat) :
    (getInfoApdu.getD 0 9 = 0x80 ∧ getInfoApdu.length = 4) ∧
    (triesApdu.getD 0 9 = 0x80 ∧ triesApdu.length = 4) ∧
    (getPublicKeyApdu.getD 0 9 = 0x80 ∧ getPublicKeyApdu.length = 4) ∧
    (signFinalizeApdu.getD 0 9 = 0x80 ∧ signFinalizeApdu.length = 4) ∧
    wipeoutApdu = [0x80, 0xF0, 0x00, 0x00, 0x00] ∧
    getRandomApdu len = [0x80, 0xC0, 0x00, 0x00, len % 256] ∧
    (pin.length ≤ 32 → pk.length = 32 →
      (initWalletApdu pin pk).getD 0 9 = 0x80 ∧
        (initWalletApdu pin pk).getD 4 9 = ((initWalletApdu pin pk).drop 5).length) ∧
    (pin.length ≤ 32 →
      (verifyPinApdu pin).getD 0 9 = 0x80 ∧
        (verifyPinApdu pin).getD 4 9 = ((verifyPinApdu pin).drop 5).length) ∧
    (∀ f ∈ buildSignApdus raw,
      f.getD 0 0 = 0x80 ∧ f.getD 4 0 = (f.drop 5).length) := by
  refine ⟨by decide, by decide, by decide, by decide, rfl, rfl, ?_, ?_, ?_⟩
  · intro hpin hpk
    refine ⟨rfl, ?_⟩
    show (1 + pin.length + pk.length) % 256 = ((pin.length % 256) :: (pin ++ pk)).length
    simp only [List.length_cons, List.length_append]
    omega
  · intro hpin
    refine ⟨rfl, ?_⟩
    show pin.length % 256 = pin.length
    omega
  · intro f hf
    rcases buildSignGo_frames raw.length true raw f hf with ⟨h0, _, h4⟩
    exact ⟨h0, h4⟩

/-- Witness for C7: the payload-carrying conjuncts instantiated at a 4-byte
pin and a 32-byte private key. -/
theorem frame_length_invariant_witness :
    (initWalletApdu [1, 2, 3, 4] (List.replicate 32 7)).getD 4 9 =
      ((initWalletApdu [1, 2, 3, 4] (List.replicate 32 7)).drop 5).length ∧
    (verifyPinApdu [1, 2, 3, 4]).getD 4 9 = ((verifyPinApdu [1, 2, 3, 4]).drop 5).length :=
  ⟨((frame_length_invariant [1, 2, 3, 4] (List.replicate 32 7) [] 0).2.2.2.2.2.2.1
      (by decide) (by decide)).2,
   ((frame_length_invariant [1, 2, 3, 4] (List.replicate 32 7) [] 0).2.2.2.2.2.2.2.1
      (by decide)).2⟩

/-- C9: `getInfo` resolves, for every 10-byte response ending in `90 00`,
the record with version `byte0.byte1` and the two low bits of byte 2 as the
initialized and pin-verified flags; the concrete response
`[1, 2, 3, 0, 0, 0, 0, 0, 0x90, 0x00]` decodes to version `1.2` with both
flags set, and a response of any other length, or one not ending in `90 00`,
is rejected. -/
theorem getInfo_spec (resp : List Nat) :
    (resp.length = 10 → resp.getD 8 0 = 0x90 → resp.getD 9 0 = 0x00 →
      classifyInfoResp resp =
        .ok { version := Nat.repr (resp.getD 0 0) ++ "." ++ Nat.repr (resp.getD 1 0),
              walletInitialized := resp.getD 2 0 &&& 0x01 == 0x01,
              pinVerified := resp.getD 2 0 &&& 0x02 == 0x02 }) ∧
    classifyInfoResp [1, 2, 3, 0, 0, 0, 0, 0, 0x90, 0x00] =
      .ok { version := "1.2", walletInitialized := true, pinVerified := true } ∧
    (resp.length ≠ 10 → ∀ info, classifyInfoResp resp ≠ .ok info) ∧
    (¬(resp.getD (resp.length - 2) 0 = 0x90 ∧ resp.getD (resp.length - 1) 0 = 0x00) →
      ∀ info, classifyInfoResp resp ≠ .ok info) := by
  refine ⟨?_, by decide, ?_, ?_⟩
  · intro hlen h90 h00
    unfold classifyInfoResp
    have e2 : resp.length - 2 = 8 := by omega
    have e1 : resp.length - 1 = 9 := by omega
    rw [e2, e1, if_pos ⟨h90, h00⟩, if_pos hlen]
  · intro hlen info
    unfold classifyInfoResp
    by_cases hst : resp.getD (resp.length - 2) 0 = 0x90 ∧ resp.getD (resp.length - 1) 0 = 0x00
    · rw [if_pos hst, if_neg hlen]
      exact fun h => nomatch h
    · rw [if_neg hst]
      exact fun h => nomatch h
  · intro hst info
    unfold classifyInfoResp
    rw [if_neg hst]
    exact fun h => nomatch h

/-- Witness for C9: the general branch applied to the concrete 10-byte
response, and the rejection branch applied to a short response. -/
theorem getInfo_spec_witness :
    classifyInfoResp [3, 4, 2, 0, 0, 0, 0, 0, 0x90, 0x00] =
      .ok { version := "3.4", walletInitialized := false, pinVerified := true } ∧
    classifyInfoResp [0x90, 0x00] ≠
      .ok { version := "1.2", walletInitialized := true, pinVerified := true } :=
  ⟨(getInfo_spec [3, 4, 2, 0, 0, 0, 0, 0, 0x90, 0x00]).1 (by decide) (by decide) (by decide),
   (getInfo_spec [0x90, 0x00]).2.2.1 (by decide) _⟩

/-- C10: every response frame `sendAPDU` resolves has length at least 2, so
the status-byte reads at indices `length - 2` and `length - 1` are in
bounds; and `getInfo` resolves its record only for responses of exactly 10
bytes, so its reads of payload bytes 0, 1 and 2 are in bounds as well. -/
theorem response_length_safety :
    (∀ (apdu : List Nat) (origin : String) (t : TransportOutcome) (resp : List Nat),
      (sendAPDURun apdu origin t).2 = .ok resp →
      2 ≤ resp.length ∧ resp.length - 2 < resp.length ∧ resp.length - 1 < resp.length) ∧
    (∀ (resp : List Nat) (info : XRPInfo), classifyInfoResp resp = .ok info →
      resp.length = 10 ∧ 2 < resp.length) := by
  constructor
  · intro apdu origin t resp hok
    have h2 : 2 ≤ resp.length := by
      unfold sendAPDURun at hok
      cases t with
      | failure e => exact absurd hok (fun h => nomatch h)
      | response sd =>
        cases sd with
        | none => exact absurd hok (fun h => nomatch h)
        | some s =>
          simp only at hok
          by_cases hlt : (base64decode (normal64 s)).length < 2
          · rw [if_pos hlt] at hok
            exact absurd hok (fun h => nomatch h)
          · rw [if_neg hlt] at hok
            cases hok
            omega
    exact ⟨h2, by omega, by omega⟩
  · intro resp info hok
    unfold classifyInfoResp at hok
    by_cases hst : resp.getD (resp.length - 2) 0 = 0x90 ∧ resp.getD (resp.length - 1) 0 = 0x00
    · rw [if_pos hst] at hok
      by_cases hlen : resp.length = 10
      · exact ⟨hlen, by omega⟩
      · rw [if_neg hlen] at hok
        exact absurd hok (fun h => nomatch h)
    · rw [if_neg hst] at hok
      exact absurd hok (fun h => nomatch h)

/-- Witness for C10: the tunneled 2-byte success response and the concrete
10-byte info response instantiate both bounds. -/
theorem response_length_safety_witness :
    (2 ≤ ([0x90, 0x00] : List Nat).length ∧
      ([0x90, 0x00] : List Nat).length - 2 < ([0x90, 0x00] : List Nat).length ∧
      ([0x90, 0x00] : List Nat).length - 1 < ([0x90, 0x00] : List Nat).length) ∧
    (([1, 2, 3, 0, 0, 0, 0, 0, 0x90, 0x00] : List Nat).length = 10 ∧
      2 < ([1, 2, 3, 0, 0, 0, 0, 0, 0x90, 0x00] : List Nat).length) :=
  ⟨response_length_safety.1 getInfoApdu "o"
      (.response (some (webSafe64 (base64encode [0x90, 0x00])))) [0x90, 0x00] (by decide),
   response_length_safety.2 [1, 2, 3, 0, 0, 0, 0, 0, 0x90, 0x00]
      { version := "1.2", walletInitialized := true, pinVerified := true } (by decide)⟩
